import Mathlib

/-!
Verification of the memory_machine temporal correlation and sampling engine.

Shallow embedding of `src/main.py`: the calendar arithmetic behind
`get_year_week` (CPython's `date.isocalendar`), the timestamp parsers used by
`load_spotify_history` and `get_photo_date`, the week-bucket construction of
`load_spotify_history` and `load_photos`, and the sampler
`get_random_photo_and_song`.  Machine-level concerns (file handles, Tk, the
Spotify client) are outside the engine and are not modelled; files are
represented by the structured data the engine actually inspects.
-/

/-! ## Calendar arithmetic

`get_year_week` calls `datetime.isocalendar()`.  The definitions below follow
CPython `Lib/datetime.py`: `_is_leap`, `_days_before_year`, `_days_in_month`,
`_days_before_month`, `_ymd2ord`, `_isoweek1monday` and `date.isocalendar`.
Integer division and modulus are floored (Python semantics); Lean's `Int`
`/` and `%` (Euclidean) agree with floored division for the positive
divisors used here. -/

def isLeap (y : Int) : Bool :=
  y % 4 = 0 && (y % 100 ≠ 0 || y % 400 = 0)

def daysInMonth (y m : Int) : Int :=
  if m = 2 then (if isLeap y then 29 else 28)
  else if m = 4 ∨ m = 6 ∨ m = 9 ∨ m = 11 then 30
  else 31

def daysBeforeMonthBase (m : Int) : Int :=
  if m = 1 then 0 else if m = 2 then 31 else if m = 3 then 59
  else if m = 4 then 90 else if m = 5 then 120 else if m = 6 then 151
  else if m = 7 then 181 else if m = 8 then 212 else if m = 9 then 243
  else if m = 10 then 273 else if m = 11 then 304 else 334

def daysBeforeMonth (y m : Int) : Int :=
  daysBeforeMonthBase m + (if 2 < m ∧ isLeap y then 1 else 0)

def daysBeforeYear (y : Int) : Int :=
  let z := y - 1
  365 * z + z / 4 - z / 100 + z / 400

/-- Proleptic Gregorian ordinal of a date: 0001-01-01 is day 1
(CPython `_ymd2ord`). -/
def ymd2ord (y m d : Int) : Int :=
  daysBeforeYear y + daysBeforeMonth y m + d

/-- Ordinal of the Monday starting ISO week 1 of `y`
(CPython `_isoweek1monday`). -/
def isoweek1monday (y : Int) : Int :=
  let firstday := ymd2ord y 1 1
  let firstweekday := (firstday + 6) % 7
  let week1monday := firstday - firstweekday
  if 3 < firstweekday then week1monday + 7 else week1monday

/-- CPython `date.isocalendar`, returning (ISO year, ISO week, ISO weekday). -/
def isocalendar (y m d : Int) : Int × Int × Int :=
  let today := ymd2ord y m d
  let week1monday := isoweek1monday y
  let week := (today - week1monday) / 7
  let day := (today - week1monday) % 7
  if week < 0 then
    let w1m := isoweek1monday (y - 1)
    (y - 1, (today - w1m) / 7 + 1, (today - w1m) % 7 + 1)
  else if 52 ≤ week ∧ isoweek1monday (y + 1) ≤ today then
    (y + 1, 1, day + 1)
  else
    (y, week + 1, day + 1)

/-- A resolved timestamp.  The engine only ever uses the broken-down local
fields (week bucketing reads year/month/day); offsets parsed from lenient
ISO-8601 strings are validated but, as in the Python code, do not shift the
stored local fields. -/
structure DateTime where
  year : Int
  month : Int
  day : Int
  hour : Int
  minute : Int
  second : Int
deriving DecidableEq, Repr

/-- `get_year_week` from `src/main.py`: `year, week, _ = dt.isocalendar()`. -/
def get_year_week (dt : DateTime) : Int × Int :=
  ((isocalendar dt.year dt.month dt.day).1, (isocalendar dt.year dt.month dt.day).2.1)

/-! ## Timestamp parsing

`load_spotify_history` parses `entry['ts']` with
`datetime.strptime(ts, '%Y-%m-%dT%H:%M:%SZ')` and falls back to
`datetime.fromisoformat(ts.replace('Z', '+00:00'))`; `get_photo_date` parses
the EXIF tag with `datetime.strptime(s, '%Y:%m:%d %H:%M:%S')`.  The directive
models below follow CPython `_strptime`'s per-directive regexes (`%m` is
`1[0-2]|0[1-9]|[1-9]`, etc.: two digits when the two-digit value is in range,
else a single digit), and the `datetime` constructor's range validation.
`parseIsoLenient` models `datetime.fromisoformat` on its extended formats
(`YYYY-MM-DD`, optional single separator, `HH[:MM[:SS[.fff]]]`, optional
`±HH[:MM[:SS]]` offset); the compact digits-only forms are not modelled. -/

def digitVal (c : Char) : Option Nat :=
  if '0' ≤ c ∧ c ≤ '9' then some (c.toNat - 48) else none

def take2Digits : List Char → Option (Nat × List Char)
  | c1 :: c2 :: rest => do
    let d1 ← digitVal c1
    let d2 ← digitVal c2
    pure (10 * d1 + d2, rest)
  | _ => none

def take4Digits : List Char → Option (Nat × List Char)
  | c1 :: c2 :: c3 :: c4 :: rest => do
    let d1 ← digitVal c1
    let d2 ← digitVal c2
    let d3 ← digitVal c3
    let d4 ← digitVal c4
    pure (1000 * d1 + 100 * d2 + 10 * d3 + d4, rest)
  | _ => none

def expectChar (c : Char) : List Char → Option (List Char)
  | x :: rest => if x = c then some rest else none
  | [] => none

/-- One numeric `strptime` directive: a two-digit match is taken when its value
lies in `[lo, hi]`, otherwise a single digit `≥ singleLo` is taken. -/
def parseField (lo hi singleLo : Nat) : List Char → Option (Nat × List Char)
  | c1 :: c2 :: rest =>
    match digitVal c1, digitVal c2 with
    | some d1, some d2 =>
      let v := 10 * d1 + d2
      if lo ≤ v ∧ v ≤ hi then some (v, rest)
      else if singleLo ≤ d1 then some (d1, c2 :: rest) else none
    | some d1, none => if singleLo ≤ d1 then some (d1, c2 :: rest) else none
    | none, _ => none
  | [c1] =>
    match digitVal c1 with
    | some d1 => if singleLo ≤ d1 then some (d1, []) else none
    | none => none
  | [] => none

/-- The `datetime(...)` constructor's validation: `ValueError` is `none`. -/
def mkDatetime (y mo d h mi s : Nat) : Option DateTime :=
  if 1 ≤ y ∧ y ≤ 9999 ∧ 1 ≤ mo ∧ mo ≤ 12 ∧ 1 ≤ d ∧
      (d : Int) ≤ daysInMonth (y : Int) (mo : Int) ∧ h ≤ 23 ∧ mi ≤ 59 ∧ s ≤ 59
  then some ⟨(y : Int), (mo : Int), (d : Int), (h : Int), (mi : Int), (s : Int)⟩
  else none

/-- `datetime.strptime(ts, '%Y-%m-%dT%H:%M:%SZ')`; `none` is `ValueError`. -/
def parseStrictTs (s : String) : Option DateTime := do
  let (y, r) ← take4Digits s.data
  let r ← expectChar '-' r
  let (mo, r) ← parseField 1 12 1 r
  let r ← expectChar '-' r
  let (d, r) ← parseField 1 31 1 r
  let r ← expectChar 'T' r
  let (h, r) ← parseField 0 23 0 r
  let r ← expectChar ':' r
  let (mi, r) ← parseField 0 59 0 r
  let r ← expectChar ':' r
  let (sec, r) ← parseField 0 61 0 r
  let r ← expectChar 'Z' r
  if r.isEmpty then mkDatetime y mo d h mi sec else none

/-- `ts.replace('Z', '+00:00')`. -/
def replaceZ (cs : List Char) : List Char :=
  cs.flatMap fun c => if c = 'Z' then ['+', '0', '0', ':', '0', '0'] else [c]

def dropDigits : List Char → List Char
  | c :: r => if '0' ≤ c ∧ c ≤ '9' then dropDigits r else c :: r
  | [] => []

def takeDigits1 : List Char → Option (List Char)
  | c :: r => if '0' ≤ c ∧ c ≤ '9' then some (dropDigits r) else none
  | [] => none

/-- Optional fractional-second part: `.` or `,` followed by one or more
digits. -/
def parseMaybeFrac : List Char → Option (List Char)
  | c :: r => if c = '.' ∨ c = ',' then takeDigits1 r else some (c :: r)
  | [] => some []

/-- Optional trailing UTC-offset part `±HH[:MM[:SS]]`, validated and
discarded (as in the Python code the offset never shifts the local fields
that `isocalendar` reads). -/
def parseTzTail : List Char → Option Unit
  | [] => some ()
  | sign :: r =>
    if sign = '+' ∨ sign = '-' then do
      let (oh, r2) ← take2Digits r
      match r2 with
      | [] => if oh ≤ 23 then some () else none
      | ':' :: r3 => do
        let (om, r4) ← take2Digits r3
        match r4 with
        | [] => if oh ≤ 23 ∧ om ≤ 59 then some () else none
        | ':' :: r5 => do
          let (os, r6) ← take2Digits r5
          if r6.isEmpty ∧ oh ≤ 23 ∧ om ≤ 59 ∧ os ≤ 59 then some () else none
        | _ => none
      | _ => none
    else none

/-- `datetime.fromisoformat` on the extended formats (see section comment). -/
def parseIsoLenient (cs : List Char) : Option DateTime := do
  let (y, r) ← take4Digits cs
  let r ← expectChar '-' r
  let (mo, r) ← take2Digits r
  let r ← expectChar '-' r
  let (d, r) ← take2Digits r
  match r with
  | [] => mkDatetime y mo d 0 0 0
  | _sep :: r1 => do
    let (h, r2) ← take2Digits r1
    match r2 with
    | ':' :: r3 => do
      let (mi, r4) ← take2Digits r3
      match r4 with
      | ':' :: r5 => do
        let (sec, r6) ← take2Digits r5
        let r7 ← parseMaybeFrac r6
        let _ ← parseTzTail r7
        mkDatetime y mo d h mi sec
      | r4 => do
        let _ ← parseTzTail r4
        mkDatetime y mo d h mi 0
    | r2 => do
      let _ ← parseTzTail r2
      mkDatetime y mo d h 0 0

/-- The listening-record timestamp resolution of `load_spotify_history`:
strict parse, then lenient parse of the `Z`-replaced string; `none` means both
raised. -/
def parseTs (s : String) : Option DateTime :=
  match parseStrictTs s with
  | some dt => some dt
  | none => parseIsoLenient (replaceZ s.data)

/-- `datetime.strptime(datestr, '%Y:%m:%d %H:%M:%S')` used on the EXIF
`DateTimeOriginal` tag. -/
def parseExifDate (s : String) : Option DateTime := do
  let (y, r) ← take4Digits s.data
  let r ← expectChar ':' r
  let (mo, r) ← parseField 1 12 1 r
  let r ← expectChar ':' r
  let (d, r) ← parseField 1 31 1 r
  let r ← expectChar ' ' r
  let (h, r) ← parseField 0 23 0 r
  let r ← expectChar ':' r
  let (mi, r) ← parseField 0 59 0 r
  let r ← expectChar ':' r
  let (sec, r) ← parseField 0 61 0 r
  if r.isEmpty then mkDatetime y mo d h mi sec else none

/-! ## Week buckets

Python `dict` preserving insertion order, used only through
`d.setdefault(k, []).append(x)` and key lookup: an association list with
unique keys. -/

abbrev WeekKey : Type := Int × Int

abbrev Buckets (α : Type) : Type := List (WeekKey × List α)

/-- `d.setdefault(w, []).append(x)`. -/
def bucketAppend (b : Buckets α) (w : WeekKey) (x : α) : Buckets α :=
  match b with
  | [] => [(w, [x])]
  | (k, l) :: rest =>
    if k = w then (k, l ++ [x]) :: rest else (k, l) :: bucketAppend rest w x

def lookupB (b : Buckets α) (w : WeekKey) : Option (List α) :=
  match b with
  | [] => none
  | (k, l) :: rest => if k = w then some l else lookupB rest w

/-- `d[w]` where the caller knows `w` is a key (`[]` stands for the
unreachable `KeyError`). -/
def lookupD (b : Buckets α) (w : WeekKey) : List α :=
  (lookupB b w).getD []

def bucketKeys (b : Buckets α) : List WeekKey :=
  b.map Prod.fst

/-! ## HistoryIngester: `load_spotify_history`

A `Streams*.json` file is modelled by the structured data the function
inspects after `json.load`: a parse failure, a top-level list of records, a
top-level object (only the three probed keys matter, each either a list of
records or some other value), or any other top-level shape.  A record is
modelled by the fields the function reads; `Option` covers both an absent
field and a JSON `null` (`dict.get` returns `None` for both). -/

structure Entry where
  ts : Option String
  master_metadata_track_name : Option String
  master_metadata_album_artist_name : Option String
  episode_name : Option String
  episode_show_name : Option String
  ms_played : Option Int
  spotify_track_uri : Option String
deriving DecidableEq, Repr

inductive DictVal where
  | list (entries : List Entry)
  | nonList
deriving DecidableEq, Repr

inductive HistoryFileData where
  | invalidJson
  | topList (entries : List Entry)
  | topDict (fields : List (String × DictVal))
  | other
deriving DecidableEq, Repr

/-- The diagnostics printed by `load_spotify_history`, in emission order. -/
inductive Diag where
  | invalidJson
  | unexpectedFormat
  | failedParse
deriving DecidableEq, Repr

/-- The dictionary appended to `tracks_by_week[year_week]` (lines 62-68 of
`src/main.py`). -/
structure Track where
  artist : String
  track : String
  timestamp : DateTime
  ms_played : Option Int
  uri : Option String
deriving DecidableEq, Repr

/-- Python `a or b` on optional strings: `None` and `''` are falsey. -/
def pyOrStr (a b : Option String) : Option String :=
  match a with
  | some s => if s = "" then b else some s
  | none => b

/-- Python `a or 'literal'`: the result is always a truthy string. -/
def pyOrLit (a : Option String) (lit : String) : String :=
  match a with
  | some s => if s = "" then lit else s
  | none => lit

/-- The record appended to `tracks_by_week`, with the track/artist fallback
chain of lines 55-68 of `src/main.py`. -/
def entryTrack (e : Entry) (dt : DateTime) : Track :=
  let tn0 := e.master_metadata_track_name
  let an0 := e.master_metadata_album_artist_name
  let tn :=
    if tn0 = none ∨ an0 = none then pyOrLit (pyOrStr tn0 e.episode_name) "Unknown Track"
    else tn0.getD ""
  let an :=
    if tn0 = none ∨ an0 = none then pyOrLit (pyOrStr an0 e.episode_show_name) "Unknown Artist"
    else an0.getD ""
  { artist := an, track := tn, timestamp := dt, ms_played := e.ms_played,
    uri := e.spotify_track_uri }

def dictLookup (m : List (String × DictVal)) (k : String) : Option DictVal :=
  match m with
  | [] => none
  | (k2, v) :: rest => if k2 = k then some v else dictLookup rest k

/-- The `possible_list_keys` loop: the first of `streaming_history`,
`playback`, `plays` that is present with a list value. -/
def firstListKey (m : List (String × DictVal)) : Option (List Entry) :=
  match dictLookup m "streaming_history" with
  | some (.list l) => some l
  | _ =>
    match dictLookup m "playback" with
    | some (.list l) => some l
    | _ =>
      match dictLookup m "plays" with
      | some (.list l) => some l
      | _ => none

/-- The list of records a file contributes; `none` means the file is skipped
with a diagnostic (invalid JSON or unrecognized shape). -/
def shapeEntries : HistoryFileData → Option (List Entry)
  | .invalidJson => none
  | .topList l => some l
  | .topDict m => firstListKey m
  | .other => none

/-- Loop state of `load_spotify_history`: the local variable `dt` (unassigned
at entry to the loop, hence `Option`), the buckets, and the diagnostics
printed so far. -/
abbrev HState : Type := Option DateTime × Buckets Track × List Diag

/-- One iteration of the record loop (lines 42-68).  When both timestamp
parses fail the code prints a diagnostic and *falls through*: it reads the
stale `dt` from a previous iteration, or raises `NameError` (`Except.error`)
when `dt` was never assigned. -/
def processEntry (st : HState) (e : Entry) : Except Unit HState :=
  match e.ts with
  | none => .ok st
  | some s =>
    match parseTs s with
    | some dt =>
      .ok (some dt, bucketAppend st.2.1 (get_year_week dt) (entryTrack e dt), st.2.2)
    | none =>
      match st.1 with
      | none => .error ()
      | some dtStale =>
        .ok (some dtStale,
             bucketAppend st.2.1 (get_year_week dtStale) (entryTrack e dtStale),
             st.2.2 ++ [Diag.failedParse])

/-- One iteration of the file loop (lines 23-68). -/
def processFile (st : HState) (f : HistoryFileData) : Except Unit HState :=
  match f with
  | .invalidJson => .ok (st.1, st.2.1, st.2.2 ++ [Diag.invalidJson])
  | f =>
    match shapeEntries f with
    | none => .ok (st.1, st.2.1, st.2.2 ++ [Diag.unexpectedFormat])
    | some entries => entries.foldlM processEntry st

/-- `load_spotify_history`, over the files matched by `Streams*.json`,
returning the buckets and the printed diagnostics, or `Except.error` for an
escaping `NameError`. -/
def load_spotify_history (files : List HistoryFileData) :
    Except Unit (Buckets Track × List Diag) :=
  (files.foldlM processFile ((none : Option DateTime), ([] : Buckets Track),
      ([] : List Diag))).map (fun st => (st.2.1, st.2.2))

/-! ## PhotoIngester: `get_photo_date` and `load_photos`

A file in the photo directory is modelled by its name (the final path
component, which is what `Path.glob('*.*')` and `Path.suffix` inspect and
what `str(imgfile)` contributes beyond the fixed folder prefix), the EXIF
`DateTimeOriginal` tag as a string (`none` when the tag is absent or the
file is unreadable), and its filesystem modification time. -/

structure PhotoFile where
  path : String
  exifDTO : Option String
  mtime : DateTime
deriving DecidableEq, Repr

def asciiLower (c : Char) : Char :=
  if 'A' ≤ c ∧ c ≤ 'Z' then Char.ofNat (c.toNat + 32) else c

/-- `PurePath.suffix`: the part of the name from the last dot, unless that
dot is the first or last character. -/
def pathSuffix (cs : List Char) : List Char :=
  match cs.reverse.findIdx? (fun c => c == '.') with
  | none => []
  | some rj =>
    let i := cs.length - 1 - rj
    if 0 < i ∧ i < cs.length - 1 then cs.drop i else []

/-- The discovery filter of `load_photos`: `glob('*.*')` plus
`suffix.lower() in ['.jpg', '.jpeg']`. -/
def matchesPhoto (f : PhotoFile) : Bool :=
  f.path.data.contains '.' &&
    (decide ((pathSuffix f.path.data).map asciiLower = ".jpg".data) ||
     decide ((pathSuffix f.path.data).map asciiLower = ".jpeg".data))

/-- `get_photo_date`: the EXIF capture time when present and parseable,
otherwise the filesystem modification time.  Total: every photo resolves. -/
def get_photo_date (f : PhotoFile) : DateTime :=
  match f.exifDTO with
  | some s => (parseExifDate s).getD f.mtime
  | none => f.mtime

def stepPhoto (b : Buckets String) (f : PhotoFile) : Buckets String :=
  if matchesPhoto f then bucketAppend b (get_year_week (get_photo_date f)) f.path else b

/-- `load_photos`. -/
def load_photos (files : List PhotoFile) : Buckets String :=
  files.foldl stepPhoto []

/-! ## Sampler: `get_random_photo_and_song`

`random.choice(seq)` draws a uniform index into `seq` and raises
`IndexError` on an empty sequence; the random source is injected as the
drawn natural number (reduced mod the length), one per call. -/

inductive SampleError where
  | indexError
deriving DecidableEq, Repr

/-- `random.choice(l)` fed by the random draw `r`. -/
def pychoice (l : List α) (r : Nat) : Except SampleError α :=
  match l with
  | [] => .error .indexError
  | x :: xs => .ok ((x :: xs).get ⟨r % (xs.length + 1), Nat.mod_lt r (Nat.succ_pos xs.length)⟩)

/-- `list(set(tracks.keys()) & set(photos.keys()))`: the distinct common
week keys. -/
def commonWeeks (tracks : Buckets Track) (photos : Buckets String) : List WeekKey :=
  ((bucketKeys tracks).filter (fun w => (bucketKeys photos).contains w)).dedup

/-- `get_random_photo_and_song`, with the three `random.choice` draws fed by
`r1`, `r2`, `r3`. -/
def get_random_photo_and_song (tracks : Buckets Track) (photos : Buckets String)
    (r1 r2 r3 : Nat) : Except SampleError (Track × String × WeekKey) :=
  match pychoice (commonWeeks tracks photos) r1 with
  | .error e => .error e
  | .ok week =>
    match pychoice (lookupD tracks week) r2 with
    | .error e => .error e
    | .ok track =>
      match pychoice (lookupD photos week) r3 with
      | .error e => .error e
      | .ok photo => .ok (track, photo, week)

/-! ## Structural lemmas about bucket construction -/

/-- One bucket-insertion step over a `(week, item)` pair. -/
def stepPair (b : Buckets α) (p : WeekKey × α) : Buckets α :=
  bucketAppend b p.1 p.2

/-- Bucket collection built from a stream of `(week, item)` pairs. -/
def foldB (its : List (WeekKey × α)) : Buckets α :=
  its.foldl stepPair []

/-- The items of the stream destined for week `w`, in stream order. -/
def itemsAt (its : List (WeekKey × α)) (w : WeekKey) : List α :=
  (its.filter (fun p => decide (p.1 = w))).map Prod.snd

theorem lookupB_bucketAppend (b : Buckets α) (w w' : WeekKey) (x : α) :
    lookupB (bucketAppend b w x) w' =
      if w = w' then some ((lookupB b w').getD [] ++ [x]) else lookupB b w' := by
  induction b with
  | nil =>
    by_cases h : w = w' <;> simp [bucketAppend, lookupB, h]
  | cons hd tl ih =>
    obtain ⟨k, l⟩ := hd
    by_cases hkw : k = w
    · subst hkw
      by_cases hww' : k = w' <;> simp [bucketAppend, lookupB, hww']
    · by_cases hkw' : k = w'
      · subst hkw'
        have hww' : ¬w = k := fun h => hkw h.symm
        simp [bucketAppend, lookupB, hkw, hww']
      · simp [bucketAppend, lookupB, hkw, hkw', ih]

theorem lookupB_foldl_stepPair (its : List (WeekKey × α)) (b0 : Buckets α) (w : WeekKey) :
    lookupB (its.foldl stepPair b0) w =
      match lookupB b0 w with
      | some l => some (l ++ itemsAt its w)
      | none =>
        if (itemsAt its w).isEmpty then none else some (itemsAt its w) := by
  induction its generalizing b0 with
  | nil =>
    cases h0 : lookupB b0 w <;> simp [itemsAt, h0]
  | cons p rest ih =>
    obtain ⟨w', x⟩ := p
    rw [List.foldl_cons, ih]
    by_cases hw : w' = w
    · subst hw
      rw [show stepPair b0 (w', x) = bucketAppend b0 w' x from rfl,
        lookupB_bucketAppend, if_pos rfl]
      simp only [itemsAt, List.filter_cons, decide_eq_true_eq, if_pos rfl]
      cases h0 : lookupB b0 w' <;> simp [List.append_assoc]
    · rw [show stepPair b0 (w', x) = bucketAppend b0 w' x from rfl,
        lookupB_bucketAppend, if_neg hw]
      simp only [itemsAt, List.filter_cons, decide_eq_true_eq, if_neg hw]

theorem lookupB_foldB (its : List (WeekKey × α)) (w : WeekKey) :
    lookupB (foldB its) w =
      if (itemsAt its w).isEmpty then none else some (itemsAt its w) := by
  rw [foldB, lookupB_foldl_stepPair]
  simp [lookupB]

theorem lookupD_foldB (its : List (WeekKey × α)) (w : WeekKey) :
    lookupD (foldB its) w = itemsAt its w := by
  rw [lookupD, lookupB_foldB]
  cases h : (itemsAt its w).isEmpty
  · simp
  · simp [List.isEmpty_iff.mp h]

theorem mem_bucketKeys_iff (b : Buckets α) (w : WeekKey) :
    w ∈ bucketKeys b ↔ (lookupB b w).isSome := by
  induction b with
  | nil => simp [bucketKeys, lookupB]
  | cons hd tl ih =>
    obtain ⟨k, l⟩ := hd
    by_cases hk : k = w
    · subst hk
      simp [bucketKeys, lookupB]
    · have hk' : ¬w = k := fun h => hk h.symm
      have hcons : bucketKeys ((k, l) :: tl) = k :: bucketKeys tl := rfl
      rw [hcons, List.mem_cons, lookupB, if_neg hk, ← ih]
      simp [hk']

theorem itemsAt_perm {its1 its2 : List (WeekKey × α)} (h : its1.Perm its2) (w : WeekKey) :
    (itemsAt its1 w).Perm (itemsAt its2 w) :=
  (h.filter _).map _

/-! ## Characterizing `load_photos` -/

/-- The `(week, path)` stream that `load_photos` inserts, in directory
order. -/
def photoItems (files : List PhotoFile) : List (WeekKey × String) :=
  (files.filter matchesPhoto).map fun f => (get_year_week (get_photo_date f), f.path)

theorem foldl_stepPhoto_eq (files : List PhotoFile) (b0 : Buckets String) :
    files.foldl stepPhoto b0 = (photoItems files).foldl stepPair b0 := by
  induction files generalizing b0 with
  | nil => rfl
  | cons f rest ih =>
    rw [List.foldl_cons]
    cases hm : matchesPhoto f
    · rw [show stepPhoto b0 f = b0 by simp [stepPhoto, hm], ih]
      simp [photoItems, List.filter_cons, hm]
    · rw [show stepPhoto b0 f =
          bucketAppend b0 (get_year_week (get_photo_date f)) f.path by
            simp [stepPhoto, hm], ih]
      simp only [photoItems, List.filter_cons, hm, if_pos, List.map_cons, List.foldl_cons]
      rfl

theorem load_photos_eq_foldB (files : List PhotoFile) :
    load_photos files = foldB (photoItems files) :=
  foldl_stepPhoto_eq files []

theorem lookupD_load_photos (files : List PhotoFile) (w : WeekKey) :
    lookupD (load_photos files) w =
      (files.filter fun f =>
        matchesPhoto f && decide (get_year_week (get_photo_date f) = w)).map
        (fun f => f.path) := by
  rw [load_photos_eq_foldB, lookupD_foldB, itemsAt, photoItems]
  rw [List.filter_map]
  simp [List.filter_filter, Function.comp_def, Bool.and_comm]

/-! ## Characterizing `load_spotify_history` -/

/-- A record that the ingestion loop handles without touching the stale-`dt`
path: either no `ts` field (silently skipped) or a parseable timestamp. -/
def cleanEntryB (e : Entry) : Bool :=
  match e.ts with
  | none => true
  | some s => (parseTs s).isSome

/-- Well-formed export file: JSON parsed, shape recognized, and every record
timestamp either absent or parseable. -/
def wfFileB (f : HistoryFileData) : Bool :=
  match shapeEntries f with
  | some es => es.all cleanEntryB
  | none => false

/-- Malformed export file: invalid JSON or unrecognized top-level shape —
exactly the `continue`-with-print cases of the file loop. -/
def malFileB (f : HistoryFileData) : Bool :=
  (shapeEntries f).isNone

/-- The diagnostic a malformed file provokes. -/
def malDiag (f : HistoryFileData) : Diag :=
  match f with
  | .invalidJson => .invalidJson
  | _ => .unexpectedFormat

/-- The bucket insertion a clean record performs (`none` for a record with no
`ts` field). -/
def entryItem (e : Entry) : Option (WeekKey × Track) :=
  match e.ts with
  | none => none
  | some s =>
    match parseTs s with
    | some dt => some (get_year_week dt, entryTrack e dt)
    | none => none

/-- The `(week, track)` stream a well-formed file inserts. -/
def fileItems (f : HistoryFileData) : List (WeekKey × Track) :=
  ((shapeEntries f).getD []).filterMap entryItem

/-- The value of the loop variable `dt` after processing a clean record
sequence. -/
def lastTs (es : List Entry) (dt0 : Option DateTime) : Option DateTime :=
  es.foldl (fun a e =>
    match e.ts with
    | none => a
    | some s => match parseTs s with | some dt => some dt | none => a) dt0

theorem foldlM_processEntry_clean (es : List Entry)
    (h : ∀ e ∈ es, cleanEntryB e = true) (dt0 : Option DateTime)
    (b : Buckets Track) (d : List Diag) :
    es.foldlM processEntry (dt0, b, d) =
      .ok (lastTs es dt0, (es.filterMap entryItem).foldl stepPair b, d) := by
  induction es generalizing dt0 b with
  | nil => rfl
  | cons e rest ih =>
    have hce := h e (List.mem_cons_self e rest)
    have hrest : ∀ e ∈ rest, cleanEntryB e = true :=
      fun e he => h e (List.mem_cons_of_mem _ he)
    rw [List.foldlM_cons]
    cases hts : e.ts with
    | none =>
      rw [show processEntry (dt0, b, d) e = .ok (dt0, b, d) by
        simp [processEntry, hts]]
      show rest.foldlM processEntry (dt0, b, d) = _
      rw [ih hrest]
      simp [lastTs, List.filterMap_cons, entryItem, hts]
    | some s =>
      cases hp : parseTs s with
      | none => simp [cleanEntryB, hts, hp] at hce
      | some dt =>
        rw [show processEntry (dt0, b, d) e =
            .ok (some dt, bucketAppend b (get_year_week dt) (entryTrack e dt), d) by
          simp [processEntry, hts, hp]]
        show rest.foldlM processEntry
            (some dt, bucketAppend b (get_year_week dt) (entryTrack e dt), d) = _
        rw [ih hrest]
        simp only [lastTs, List.foldl_cons, List.filterMap_cons, entryItem, hts, hp]
        rfl

theorem processFile_wf (f : HistoryFileData) (h : wfFileB f = true)
    (dt0 : Option DateTime) (b : Buckets Track) (d : List Diag) :
    processFile (dt0, b, d) f =
      .ok (lastTs ((shapeEntries f).getD []) dt0, (fileItems f).foldl stepPair b, d) := by
  cases f with
  | invalidJson => simp [wfFileB, shapeEntries] at h
  | other => simp [wfFileB, shapeEntries] at h
  | topList es =>
    have hall : ∀ e ∈ es, cleanEntryB e = true := by
      simpa [wfFileB, shapeEntries, List.all_eq_true] using h
    rw [show processFile (dt0, b, d) (.topList es) = es.foldlM processEntry (dt0, b, d)
        from rfl]
    rw [foldlM_processEntry_clean es hall]
    rfl
  | topDict m =>
    cases hse : firstListKey m with
    | none => simp [wfFileB, shapeEntries, hse] at h
    | some es =>
      have hall : ∀ e ∈ es, cleanEntryB e = true := by
        simpa [wfFileB, shapeEntries, hse, List.all_eq_true] using h
      rw [show processFile (dt0, b, d) (.topDict m) = es.foldlM processEntry (dt0, b, d) by
        simp [processFile, shapeEntries, hse]]
      rw [foldlM_processEntry_clean es hall]
      simp [fileItems, shapeEntries, hse]

theorem processFile_mal (f : HistoryFileData) (h : malFileB f = true)
    (dt0 : Option DateTime) (b : Buckets Track) (d : List Diag) :
    processFile (dt0, b, d) f = .ok (dt0, b, d ++ [malDiag f]) := by
  cases f with
  | invalidJson => rfl
  | other => rfl
  | topList es => simp [malFileB, shapeEntries] at h
  | topDict m =>
    cases hse : firstListKey m with
    | none => simp [processFile, shapeEntries, hse, malDiag]
    | some es => simp [malFileB, shapeEntries, hse] at h

/-- The `(week, track)` stream inserted by the well-formed files of a run. -/
def wfItems (files : List HistoryFileData) : List (WeekKey × Track) :=
  (files.filter wfFileB).flatMap fileItems

/-- The diagnostics emitted for the malformed files of a run, in order. -/
def malDiags (files : List HistoryFileData) : List Diag :=
  (files.filter malFileB).map malDiag

theorem wf_not_mal {f : HistoryFileData} (h : wfFileB f = true) : malFileB f = false := by
  cases hse : shapeEntries f
  · simp [wfFileB, hse] at h
  · simp [malFileB, hse]

theorem mal_not_wf {f : HistoryFileData} (h : malFileB f = true) : wfFileB f = false := by
  cases hse : shapeEntries f
  · simp [wfFileB, hse]
  · simp [malFileB, hse] at h

theorem foldlM_processFile_mixed (files : List HistoryFileData)
    (h : ∀ f ∈ files, wfFileB f = true ∨ malFileB f = true) :
    ∀ (dt0 : Option DateTime) (b : Buckets Track) (d : List Diag),
    ∃ dt1, files.foldlM processFile (dt0, b, d) =
      .ok (dt1, (wfItems files).foldl stepPair b, d ++ malDiags files) := by
  induction files with
  | nil =>
    intro dt0 b d
    exact ⟨dt0, by simp [wfItems, malDiags]; rfl⟩
  | cons f rest ih =>
    intro dt0 b d
    have hrest : ∀ g ∈ rest, wfFileB g = true ∨ malFileB g = true :=
      fun g hg => h g (List.mem_cons_of_mem _ hg)
    rcases h f (List.mem_cons_self f rest) with hwf | hmal
    · rw [List.foldlM_cons, processFile_wf f hwf]
      obtain ⟨dt1, hrun⟩ := ih hrest (lastTs ((shapeEntries f).getD []) dt0)
        ((fileItems f).foldl stepPair b) d
      refine ⟨dt1, ?_⟩
      show rest.foldlM processFile _ = _
      rw [hrun]
      have hm := wf_not_mal hwf
      simp [wfItems, malDiags, List.filter_cons, hwf, hm, List.foldl_append]
    · rw [List.foldlM_cons, processFile_mal f hmal]
      obtain ⟨dt1, hrun⟩ := ih hrest dt0 b (d ++ [malDiag f])
      refine ⟨dt1, ?_⟩
      show rest.foldlM processFile _ = _
      rw [hrun]
      have hw := mal_not_wf hmal
      simp [wfItems, malDiags, List.filter_cons, hmal, hw, List.append_assoc]

/-- A run over well-formed and malformed files succeeds, and its buckets are
exactly the fold of the well-formed files' insertions. -/
theorem load_spotify_history_mixed (files : List HistoryFileData)
    (h : ∀ f ∈ files, wfFileB f = true ∨ malFileB f = true) :
    load_spotify_history files = .ok (foldB (wfItems files), malDiags files) := by
  obtain ⟨dt1, hrun⟩ := foldlM_processFile_mixed files h none [] []
  simp only [load_spotify_history, hrun, Except.map]
  rfl

/-! ## ISO-8601 week arithmetic

Facts about the calendar model, leading to the proof that `isocalendar`
realizes the spec's definition of ISO week numbering ("week 1 is the week
containing the year's first Thursday"). -/

theorem isLeap_iff (y : Int) :
    isLeap y = true ↔ (y % 4 = 0 ∧ (y % 100 ≠ 0 ∨ y % 400 = 0)) := by
  simp [isLeap, Bool.and_eq_true, Bool.or_eq_true, decide_eq_true_eq]

theorem daysBeforeYear_succ (y : Int) :
    daysBeforeYear (y + 1) = daysBeforeYear y + 365 + (if isLeap y then 1 else 0) := by
  have hiff := isLeap_iff y
  by_cases hl : isLeap y = true
  · rw [if_pos hl]
    have hy := hiff.mp hl
    simp only [daysBeforeYear]
    omega
  · rw [if_neg hl]
    have hy : ¬(y % 4 = 0 ∧ (y % 100 ≠ 0 ∨ y % 400 = 0)) := fun hc => hl (hiff.mpr hc)
    simp only [daysBeforeYear]
    omega

theorem ymd2ord_jan1_succ (y : Int) :
    ymd2ord y 1 1 + 365 ≤ ymd2ord (y + 1) 1 1 ∧
      ymd2ord (y + 1) 1 1 ≤ ymd2ord y 1 1 + 366 := by
  have h := daysBeforeYear_succ y
  simp only [ymd2ord, daysBeforeMonth, daysBeforeMonthBase]
  split_ifs at h <;> simp <;> omega

theorem ymd2ord_bounds (y m d : Int) (hm1 : 1 ≤ m) (hm2 : m ≤ 12)
    (hd1 : 1 ≤ d) (hd2 : d ≤ daysInMonth y m) :
    ymd2ord y 1 1 ≤ ymd2ord y m d ∧ ymd2ord y m d < ymd2ord (y + 1) 1 1 := by
  have hsucc := daysBeforeYear_succ y
  by_cases hl : isLeap y = true <;>
    simp only [hl, if_pos, if_neg, if_true, if_false] at hsucc <;>
    interval_cases m <;>
    simp [ymd2ord, daysBeforeMonth, daysBeforeMonthBase, daysInMonth, hl] at hd2 ⊢ <;>
    omega

theorem isoweek1monday_facts (y : Int) :
    ymd2ord y 1 1 - 3 ≤ isoweek1monday y ∧ isoweek1monday y ≤ ymd2ord y 1 1 + 3 ∧
      (isoweek1monday y) % 7 = 1 := by
  simp only [isoweek1monday]
  split_ifs with h <;> omega

/-- Start (Monday) of the Monday-based week containing ordinal `o`; ordinal
day 1 (0001-01-01) is a Monday. -/
def mondayOf (o : Int) : Int := o - (o + 6) % 7

/-- The first Thursday of year `y` (on or after January 1). -/
def firstThursday (y : Int) : Int :=
  ymd2ord y 1 1 + (3 - (ymd2ord y 1 1 + 6) % 7) % 7

/-- Spec-side: the Monday starting the week that contains year `y`'s first
Thursday — per the spec, the first day of ISO week 1 of `y`. -/
def isoWeek1Start (y : Int) : Int := mondayOf (firstThursday y)

/-- Spec-side ISO-8601 week membership: date ordinal `o` belongs to week `w`
of ISO year `y` iff it lies in the 7-day span starting `w - 1` weeks after
the start of `y`'s week 1, before the start of ISO year `y + 1`. -/
def isoWeekSpec (o : Int) (yw : Int × Int) : Prop :=
  1 ≤ yw.2 ∧ isoWeek1Start yw.1 + 7 * (yw.2 - 1) ≤ o ∧
    o < isoWeek1Start yw.1 + 7 * yw.2 ∧ o < isoWeek1Start (yw.1 + 1)

theorem isoWeek1Start_eq (y : Int) : isoWeek1Start y = isoweek1monday y := by
  simp only [isoWeek1Start, mondayOf, firstThursday, isoweek1monday]
  omega

theorem isocalendar_isoWeekSpec (y m d : Int) (hm1 : 1 ≤ m) (hm2 : m ≤ 12)
    (hd1 : 1 ≤ d) (hd2 : d ≤ daysInMonth y m) :
    isoWeekSpec (ymd2ord y m d) ((isocalendar y m d).1, (isocalendar y m d).2.1) := by
  obtain ⟨hlo, hhi⟩ := ymd2ord_bounds y m d hm1 hm2 hd1 hd2
  have hf0 := isoweek1monday_facts (y - 1)
  have hf1 := isoweek1monday_facts y
  have hf2 := isoweek1monday_facts (y + 1)
  have hf3 := isoweek1monday_facts (y + 1 + 1)
  have hj1 := ymd2ord_jan1_succ (y - 1)
  have hj2 := ymd2ord_jan1_succ y
  have hj3 := ymd2ord_jan1_succ (y + 1)
  rw [show y - 1 + 1 = y from by ring] at hj1
  simp only [isocalendar]
  split_ifs with h1 h2
  · have e : y - 1 + 1 = y := by ring
    simp only [isoWeekSpec, isoWeek1Start_eq, e]
    refine ⟨?_, ?_, ?_, ?_⟩ <;> omega
  · simp only [isoWeekSpec, isoWeek1Start_eq]
    refine ⟨?_, ?_, ?_, ?_⟩ <;> omega
  · simp only [isoWeekSpec, isoWeek1Start_eq]
    rw [show y + 1 = y + 1 from rfl]
    refine ⟨?_, ?_, ?_, ?_⟩ <;> omega

/-! ## Sampler lemmas -/

instance exceptDecEq {ε α : Type _} [DecidableEq ε] [DecidableEq α] :
    DecidableEq (Except ε α) := fun a b => by
  cases a with
  | error e1 =>
    cases b with
    | error e2 => exact decidable_of_iff (e1 = e2) (by simp)
    | ok b2 => exact isFalse (by simp)
  | ok a1 =>
    cases b with
    | error e2 => exact isFalse (by simp)
    | ok b2 => exact decidable_of_iff (a1 = b2) (by simp)

/-- Pre-assembled instance for the result type of `load_spotify_history`,
keeping instance search shallow enough for `decide` on concrete runs. -/
instance : DecidableEq (Except Unit (Buckets Track × List Diag)) := exceptDecEq

theorem pychoice_lt (l : List α) (r : Nat) (h : r < l.length) :
    pychoice l r = .ok (l.get ⟨r, h⟩) := by
  cases l with
  | nil => simp at h
  | cons x xs => simp [pychoice, Nat.mod_eq_of_lt (by simpa using h)]

theorem pychoice_ok_mem {l : List α} {r : Nat} {x : α}
    (h : pychoice l r = .ok x) : x ∈ l := by
  cases l with
  | nil => simp [pychoice] at h
  | cons y ys =>
    simp only [pychoice, Except.ok.injEq] at h
    exact h ▸ List.get_mem _ _ _

/-- Uniformity of `random.choice`: among the `l.length` equiprobable draws,
exactly `l.count x` select the value `x`. -/
theorem card_filter_pychoice [DecidableEq α] (l : List α) (x : α) :
    ((Finset.range l.length).filter (fun r => pychoice l r = Except.ok x)).card =
      l.count x := by
  induction l using List.reverseRecOn with
  | nil => simp [pychoice]
  | append_singleton l a ih =>
    have hch : pychoice (l ++ [a]) l.length = .ok a := by
      rw [pychoice_lt (l ++ [a]) l.length (by simp)]
      simp
    have hcongr :
        (Finset.range l.length).filter (fun r => pychoice (l ++ [a]) r = Except.ok x) =
        (Finset.range l.length).filter (fun r => pychoice l r = Except.ok x) := by
      apply Finset.filter_congr
      intro r hr
      rw [Finset.mem_range] at hr
      rw [pychoice_lt (l ++ [a]) r (by simp; omega), pychoice_lt l r hr]
      simp [List.getElem_append_left hr]
    rw [List.length_append, List.length_singleton, Finset.range_succ,
      Finset.filter_insert, hcongr]
    by_cases hax : a = x
    · subst hax
      rw [if_pos hch, Finset.card_insert_of_not_mem (by simp), ih]
      simp
    · rw [if_neg (by simp [hch, hax]), ih]
      have hxa : ¬x = a := fun h => hax h.symm
      simp [List.count_cons, hax, hxa]

theorem mem_commonWeeks {tracks : Buckets Track} {photos : Buckets String} {w : WeekKey}
    (h : w ∈ commonWeeks tracks photos) :
    w ∈ bucketKeys tracks ∧ w ∈ bucketKeys photos := by
  rw [commonWeeks, List.mem_dedup, List.mem_filter] at h
  refine ⟨h.1, ?_⟩
  simpa using h.2

/-! ## Bucket well-formedness (no empty entries) -/

def BucketsWF (b : Buckets α) : Prop := ∀ w l, lookupB b w = some l → l ≠ []

theorem BucketsWF_nil : BucketsWF ([] : Buckets α) := by
  intro w l h
  simp [lookupB] at h

theorem BucketsWF_append {b : Buckets α} (hb : BucketsWF b) (w : WeekKey) (x : α) :
    BucketsWF (bucketAppend b w x) := by
  intro w' l' h
  rw [lookupB_bucketAppend] at h
  split_ifs at h with hww
  · cases h
    simp
  · exact hb w' l' h

theorem processEntry_WF {st st' : HState} (e : Entry) (h : BucketsWF st.2.1)
    (he : processEntry st e = .ok st') : BucketsWF st'.2.1 := by
  cases hts : e.ts with
  | none =>
    simp only [processEntry, hts] at he
    cases he
    exact h
  | some s =>
    cases hp : parseTs s with
    | some dt =>
      simp only [processEntry, hts, hp] at he
      cases he
      exact BucketsWF_append h _ _
    | none =>
      cases hdt : st.1 with
      | none => simp [processEntry, hts, hp, hdt] at he
      | some dtStale =>
        simp only [processEntry, hts, hp, hdt] at he
        cases he
        exact BucketsWF_append h _ _

theorem foldlM_processEntry_WF (es : List Entry) :
    ∀ (st st' : HState), BucketsWF st.2.1 →
      es.foldlM processEntry st = .ok st' → BucketsWF st'.2.1 := by
  induction es with
  | nil =>
    intro st st' h he
    simp only [List.foldlM_nil] at he
    cases he
    exact h
  | cons e rest ih =>
    intro st st' h he
    rw [List.foldlM_cons] at he
    cases hstep : processEntry st e with
    | error err => rw [hstep] at he; cases he
    | ok st1 =>
      rw [hstep] at he
      exact ih st1 st' (processEntry_WF e h hstep) he

theorem processFile_WF {st st' : HState} (f : HistoryFileData) (h : BucketsWF st.2.1)
    (he : processFile st f = .ok st') : BucketsWF st'.2.1 := by
  cases f with
  | invalidJson =>
    simp only [processFile] at he
    cases he
    exact h
  | topList es =>
    exact foldlM_processEntry_WF es st st' h he
  | topDict m =>
    cases hse : firstListKey m with
    | none =>
      simp only [processFile, shapeEntries, hse] at he
      cases he
      exact h
    | some es =>
      simp only [processFile, shapeEntries, hse] at he
      exact foldlM_processEntry_WF es st st' h he
  | other =>
    simp only [processFile, shapeEntries] at he
    cases he
    exact h

theorem foldlM_processFile_WF (files : List HistoryFileData) :
    ∀ (st st' : HState), BucketsWF st.2.1 →
      files.foldlM processFile st = .ok st' → BucketsWF st'.2.1 := by
  induction files with
  | nil =>
    intro st st' h he
    simp only [List.foldlM_nil] at he
    cases he
    exact h
  | cons f rest ih =>
    intro st st' h he
    rw [List.foldlM_cons] at he
    cases hstep : processFile st f with
    | error err => rw [hstep] at he; cases he
    | ok st1 =>
      rw [hstep] at he
      exact ih st1 st' (processFile_WF f h hstep) he

theorem load_photos_WF (files : List PhotoFile) : BucketsWF (load_photos files) := by
  rw [load_photos]
  have : ∀ b0 : Buckets String, BucketsWF b0 → BucketsWF (files.foldl stepPhoto b0) := by
    induction files with
    | nil => intro b0 h; exact h
    | cons f rest ih =>
      intro b0 h
      rw [List.foldl_cons]
      apply ih
      rw [stepPhoto]
      split_ifs with hm
      · exact BucketsWF_append h _ _
      · exact h
  exact this [] BucketsWF_nil

/-! ## Concrete fixtures for witnesses and counterexamples -/

/-- A record with every field populated and a strict-format timestamp
(Monday 2024-03-04, ISO week (2024, 10)). -/
def entryGood : Entry :=
  { ts := some "2024-03-04T10:00:00Z", master_metadata_track_name := some "Song A",
    master_metadata_album_artist_name := some "Artist B", episode_name := none,
    episode_show_name := none, ms_played := some 212000,
    spotify_track_uri := some "spotify:track:xyz" }

/-- A record whose `ts` fails both the strict and the lenient parse. -/
def entryBadTs : Entry :=
  { ts := some "not-a-timestamp", master_metadata_track_name := some "Song C",
    master_metadata_album_artist_name := some "Artist D", episode_name := none,
    episode_show_name := none, ms_played := none, spotify_track_uri := none }

/-- A second clean record in ISO week (2024, 11). -/
def entryGood2 : Entry :=
  { ts := some "2024-03-12T09:30:00Z", master_metadata_track_name := some "Song E",
    master_metadata_album_artist_name := some "Artist F", episode_name := none,
    episode_show_name := none, ms_played := some 5000, spotify_track_uri := none }

/-- Photo with no EXIF tag, bucketed by mtime into week (2024, 10). -/
def photoX : PhotoFile :=
  { path := "a.jpg", exifDTO := none, mtime := ⟨2024, 3, 4, 10, 0, 0⟩ }

/-- Same path as `photoX` but a different mtime in the same ISO week. -/
def photoY : PhotoFile :=
  { path := "a.jpg", exifDTO := none, mtime := ⟨2024, 3, 5, 11, 0, 0⟩ }

/-- Photo with an EXIF capture time, bucketed into week (2024, 11). -/
def photoZ : PhotoFile :=
  { path := "b.JPEG", exifDTO := some "2024:03:12 08:00:00",
    mtime := ⟨2025, 1, 1, 0, 0, 0⟩ }

/-! ## C2 — disjoint week sets: sampling fails, no sample, state untouched -/

/-- C2: when the history and photo week-key sets are disjoint,
`get_random_photo_and_song` fails on the very first `random.choice` (the
`IndexError` on the empty intersection, the spec's `NoOverlap` condition)
and returns no sample.  The embedding is pure: the function only reads the
two bucket collections, so they are unchanged by construction. -/
theorem C2_disjoint_weeks_no_overlap (tracks : Buckets Track) (photos : Buckets String)
    (r1 r2 r3 : Nat)
    (hdisj : ∀ w ∈ bucketKeys tracks, w ∉ bucketKeys photos) :
    get_random_photo_and_song tracks photos r1 r2 r3 = .error .indexError := by
  have hcw : commonWeeks tracks photos = [] := by
    rw [commonWeeks, List.dedup_eq_nil]
    apply List.filter_eq_nil_iff.mpr
    intro w hw
    simpa using hdisj w hw
  rw [get_random_photo_and_song, hcw]
  rfl

/-- Witness for C2 at concrete disjoint buckets. -/
theorem C2_disjoint_weeks_no_overlap_witness :
    get_random_photo_and_song [((2024, 10), [entryTrack entryGood ⟨2024, 3, 4, 10, 0, 0⟩])]
      [((2024, 11), ["b.JPEG"])] 0 0 0 = .error .indexError :=
  C2_disjoint_weeks_no_overlap _ _ 0 0 0 (by decide)

/-! ## C10 — soundness of a successful sample -/

/-- C10: a successful `get_random_photo_and_song` returns a week present in
both bucket collections, a track from that week's history bucket, and a
photo from that week's photo bucket. -/
theorem C10_sample_sound (tracks : Buckets Track) (photos : Buckets String)
    (r1 r2 r3 : Nat) (t : Track) (p : String) (w : WeekKey)
    (h : get_random_photo_and_song tracks photos r1 r2 r3 = .ok (t, p, w)) :
    w ∈ bucketKeys tracks ∧ w ∈ bucketKeys photos ∧
      t ∈ lookupD tracks w ∧ p ∈ lookupD photos w := by
  rw [get_random_photo_and_song] at h
  cases hc1 : pychoice (commonWeeks tracks photos) r1 with
  | error e => simp only [hc1] at h; exact Except.noConfusion h
  | ok week =>
    simp only [hc1] at h
    cases hc2 : pychoice (lookupD tracks week) r2 with
    | error e => simp only [hc2] at h; exact Except.noConfusion h
    | ok track =>
      simp only [hc2] at h
      cases hc3 : pychoice (lookupD photos week) r3 with
      | error e => simp only [hc3] at h; exact Except.noConfusion h
      | ok photo =>
        simp only [hc3, Except.ok.injEq, Prod.mk.injEq] at h
        obtain ⟨ht, hp, hw⟩ := h
        subst ht
        subst hp
        subst hw
        obtain ⟨hkt, hkp⟩ := mem_commonWeeks (pychoice_ok_mem hc1)
        exact ⟨hkt, hkp, pychoice_ok_mem hc2, pychoice_ok_mem hc3⟩

/-- Witness for C10 at a concrete singleton overlap. -/
theorem C10_sample_sound_witness :
    (2024, 10) ∈ bucketKeys [((2024, 10), [entryTrack entryGood ⟨2024, 3, 4, 10, 0, 0⟩])] ∧
    ((2024, 10) : WeekKey) ∈ bucketKeys [((2024, 10), ["a.jpg"])] ∧
    entryTrack entryGood ⟨2024, 3, 4, 10, 0, 0⟩ ∈
      lookupD [((2024, 10), [entryTrack entryGood ⟨2024, 3, 4, 10, 0, 0⟩])] (2024, 10) ∧
    "a.jpg" ∈ lookupD [((2024, 10), ["a.jpg"])] (2024, 10) :=
  C10_sample_sound _ _ 7 5 3 _ _ _ (by decide)

/-! ## C9 — no week key maps to an empty sequence -/

/-- C9: in any bucket collection produced by `load_spotify_history` or
`load_photos`, every present week key maps to a non-empty list (buckets are
created lazily by `setdefault(...).append(...)`). -/
theorem C9_buckets_never_empty :
    (∀ (files : List HistoryFileData) (b : Buckets Track) (d : List Diag),
      load_spotify_history files = .ok (b, d) →
      ∀ (w : WeekKey) (l : List Track), lookupB b w = some l → l ≠ []) ∧
    (∀ (files : List PhotoFile) (w : WeekKey) (l : List String),
      lookupB (load_photos files) w = some l → l ≠ []) := by
  constructor
  · intro files b d hload w l hlook
    rw [load_spotify_history] at hload
    cases hrun : files.foldlM processFile
        ((none : Option DateTime), ([] : Buckets Track), ([] : List Diag)) with
    | error e => rw [hrun] at hload; cases hload
    | ok st =>
      rw [hrun] at hload
      cases hload
      exact foldlM_processFile_WF files _ st BucketsWF_nil hrun w l hlook
  · intro files w l hlook
    exact load_photos_WF files w l hlook

/-- Witness for C9 at concrete runs of both ingesters. -/
theorem C9_buckets_never_empty_witness :
    ([entryTrack entryGood ⟨2024, 3, 4, 10, 0, 0⟩] : List Track) ≠ [] ∧
    (["a.jpg"] : List String) ≠ [] :=
  ⟨C9_buckets_never_empty.1 [.topList [entryGood]]
      [((2024, 10), [entryTrack entryGood ⟨2024, 3, 4, 10, 0, 0⟩])] [] (by decide)
      (2024, 10) [entryTrack entryGood ⟨2024, 3, 4, 10, 0, 0⟩] (by decide),
   C9_buckets_never_empty.2 [photoX] (2024, 10) ["a.jpg"] (by decide)⟩

/-! ## C7 — what a photo bucket entry actually carries -/

/-- Spec-side data model (§3 of the spec): a photo bucket entry is a record
carrying both the path and the resolved capture instant. -/
structure PhotoRecord where
  path : String
  timestamp : DateTime
deriving DecidableEq, Repr

/-- Spec-side ingestion, per the spec's words: identical traversal to
`load_photos` but storing the full `PhotoRecord`.  For comparison with the
source's `load_photos`, which stores `str(imgfile)` only. -/
def load_photos_spec (files : List PhotoFile) : Buckets PhotoRecord :=
  files.foldl (fun b f =>
    if matchesPhoto f then
      bucketAppend b (get_year_week (get_photo_date f)) ⟨f.path, get_photo_date f⟩
    else b) []

/-- C7 counterexample: two directories that differ only in one photo's
resolved timestamp (same week) produce *identical* source buckets, although
the resolved timestamps differ — so the stored entry cannot carry the
timestamp.  The spec-faithful `load_photos_spec` distinguishes them. -/
theorem C7_counterexample_entry_has_no_timestamp :
    load_photos [photoX] = load_photos [photoY] ∧
    get_photo_date photoX ≠ get_photo_date photoY ∧
    load_photos_spec [photoX] ≠ load_photos_spec [photoY] := by
  decide

/-- C7 (amended): every entry stored in a photo week bucket is the *path
string* of a discovered photo whose resolved timestamp falls in that bucket's
week; the timestamp itself is used only to choose the bucket and is not
stored. -/
theorem C7_entries_are_paths (files : List PhotoFile) (w : WeekKey) (e : String)
    (he : e ∈ lookupD (load_photos files) w) :
    ∃ f ∈ files, matchesPhoto f = true ∧ e = f.path ∧
      get_year_week (get_photo_date f) = w := by
  rw [lookupD_load_photos] at he
  obtain ⟨f, hf, rfl⟩ := List.mem_map.mp he
  obtain ⟨hmem, hcond⟩ := List.mem_filter.mp hf
  rw [Bool.and_eq_true, decide_eq_true_eq] at hcond
  exact ⟨f, hmem, hcond.1, rfl, hcond.2⟩

/-- Witness for the amended C7 at a concrete directory. -/
theorem C7_entries_are_paths_witness :
    ∃ f ∈ [photoX], matchesPhoto f = true ∧ "a.jpg" = f.path ∧
      get_year_week (get_photo_date f) = (2024, 10) :=
  C7_entries_are_paths [photoX] (2024, 10) "a.jpg" (by decide)

/-! ## C1 — records with unparseable timestamps are not skipped -/

/-- C1: the code contradicts the spec's skip-and-log contract.  With a
preceding valid record, a record whose `ts` fails both parses is *appended
anyway*, bucketed under the stale `dt` of the previous record (here both land
in week (2024, 10) and the bad record carries the good record's timestamp);
with no preceding record, the loop raises `NameError` and ingestion aborts.
The diagnostic is printed in the first case, so only the "skip" half of the
claim fails. -/
theorem C1_unparseable_ts_not_skipped :
    load_spotify_history [.topList [entryGood, entryBadTs]] =
      .ok ([((2024, 10),
        [entryTrack entryGood ⟨2024, 3, 4, 10, 0, 0⟩,
         entryTrack entryBadTs ⟨2024, 3, 4, 10, 0, 0⟩])],
        [.failedParse]) ∧
    load_spotify_history [.topList [entryBadTs]] = .error () := by
  decide

/-! ## C4 — tolerance of malformed export files -/

theorem wfItems_filter (files : List HistoryFileData) :
    wfItems (files.filter wfFileB) = wfItems files := by
  rw [wfItems, wfItems, List.filter_filter]
  congr 1
  apply List.filter_congr
  intro f _
  cases h : wfFileB f <;> simp [h]

theorem malDiags_filter_wf (files : List HistoryFileData) :
    malDiags (files.filter wfFileB) = [] := by
  rw [malDiags, List.map_eq_nil_iff, List.filter_filter]
  apply List.filter_eq_nil_iff.mpr
  intro f _
  cases h : wfFileB f
  · simp [h]
  · simp [wf_not_mal h]

/-- C4: over a directory of well-formed and malformed export files,
ingestion completes without raising, emits exactly one diagnostic per
malformed file, and produces the same buckets as ingesting the well-formed
files alone. -/
theorem C4_malformed_files_skipped (files : List HistoryFileData)
    (h : ∀ f ∈ files, wfFileB f = true ∨ malFileB f = true) :
    ∃ b, load_spotify_history files = .ok (b, (files.filter malFileB).map malDiag) ∧
      load_spotify_history (files.filter wfFileB) = .ok (b, []) ∧
      ((files.filter malFileB).map malDiag).length = (files.filter malFileB).length := by
  refine ⟨foldB (wfItems files), load_spotify_history_mixed files h, ?_, by simp⟩
  have h2 : ∀ f ∈ files.filter wfFileB, wfFileB f = true ∨ malFileB f = true :=
    fun f hf => Or.inl (List.of_mem_filter hf)
  rw [load_spotify_history_mixed _ h2, wfItems_filter, malDiags_filter_wf]

/-- Witness for C4: one valid file, one invalid-JSON file, one
unrecognized-shape file. -/
theorem C4_malformed_files_skipped_witness :
    ∃ b, load_spotify_history [.topList [entryGood], .invalidJson, .other] =
        .ok (b, ([.invalidJson, .other].filter malFileB).map malDiag) ∧
      load_spotify_history ([.topList [entryGood], .invalidJson, .other].filter wfFileB) =
        .ok (b, []) ∧
      (([.topList [entryGood], .invalidJson, .other].filter malFileB).map malDiag).length =
        ([.topList [entryGood], .invalidJson, .other].filter malFileB).length := by
  obtain ⟨b, h1, h2, h3⟩ := C4_malformed_files_skipped
    [.topList [entryGood], .invalidJson, .other] (by decide)
  exact ⟨b, by simpa using h1, h2, h3⟩

/-! ## C6 — every discovered photo is bucketed exactly once -/

theorem flatMap_bucketAppend_perm (b : Buckets α) (w : WeekKey) (x : α) :
    ((bucketAppend b w x).flatMap fun p => p.2).Perm
      ((b.flatMap fun p => p.2) ++ [x]) := by
  induction b with
  | nil => simp [bucketAppend]
  | cons hd tl ih =>
    obtain ⟨k, l⟩ := hd
    by_cases hk : k = w
    · subst hk
      simp only [bucketAppend, if_pos rfl, List.flatMap_cons]
      have h : (l ++ ([x] ++ tl.flatMap (fun p => p.2))).Perm
          (l ++ (tl.flatMap (fun p => p.2) ++ [x])) :=
        List.Perm.append_left l List.perm_append_comm
      simpa [List.append_assoc] using h
    · simp only [bucketAppend, if_neg hk, List.flatMap_cons]
      have h := List.Perm.append_left l ih
      simpa [List.append_assoc] using h

theorem flatMap_foldl_stepPair_perm (its : List (WeekKey × α)) (b0 : Buckets α) :
    ((its.foldl stepPair b0).flatMap fun p => p.2).Perm
      ((b0.flatMap fun p => p.2) ++ its.map Prod.snd) := by
  induction its generalizing b0 with
  | nil => simp
  | cons p rest ih =>
    obtain ⟨w, x⟩ := p
    rw [List.foldl_cons]
    refine (ih (stepPair b0 (w, x))).trans ?_
    have h1 := (flatMap_bucketAppend_perm b0 w x).append_right (rest.map Prod.snd)
    refine h1.trans ?_
    simp [List.append_assoc]

/-- The multiset of all entries across buckets is exactly the matching
files' paths. -/
theorem count_load_photos (files : List PhotoFile) (x : String) :
    ((load_photos files).flatMap fun p => p.2).count x =
      ((files.filter matchesPhoto).map fun f => f.path).count x := by
  rw [load_photos_eq_foldB, foldB]
  have h := (flatMap_foldl_stepPair_perm (photoItems files) []).count_eq x
  simpa [photoItems, List.map_map, Function.comp_def] using h

/-- C6: with distinct paths, every discovered `.jpg`/`.jpeg` file yields
exactly one bucketed record; it lies precisely in the bucket of the week of
its resolved date; and the resolution never fails: the parsed EXIF capture
time when available, otherwise the filesystem mtime (`get_photo_date` is a
total function of the embedding, mirroring the code's never-raising fallback
chain). -/
theorem C6_every_photo_bucketed (files : List PhotoFile)
    (hnd : (files.map fun f => f.path).Nodup) :
    ∀ f ∈ files, matchesPhoto f = true →
      (((load_photos files).flatMap fun p => p.2).count f.path = 1) ∧
      (∀ w, f.path ∈ lookupD (load_photos files) w ↔
        w = get_year_week (get_photo_date f)) ∧
      (∀ s dt, f.exifDTO = some s → parseExifDate s = some dt →
        get_photo_date f = dt) ∧
      ((f.exifDTO.bind fun s => parseExifDate s) = none →
        get_photo_date f = f.mtime) := by
  intro f hf hm
  have hndf : ((files.filter matchesPhoto).map fun f => f.path).Nodup :=
    ((List.filter_sublist files).map _).nodup hnd
  refine ⟨?_, ?_, ?_, ?_⟩
  · rw [count_load_photos]
    exact List.count_eq_one_of_mem hndf
      (List.mem_map_of_mem _ (List.mem_filter.mpr ⟨hf, hm⟩))
  · intro w
    constructor
    · intro hmem
      rw [lookupD_load_photos] at hmem
      obtain ⟨g, hg, hpg⟩ := List.mem_map.mp hmem
      obtain ⟨hgmem, hcond⟩ := List.mem_filter.mp hg
      rw [Bool.and_eq_true, decide_eq_true_eq] at hcond
      have hgf : g = f := List.inj_on_of_nodup_map hnd hgmem hf hpg
      rw [← hcond.2, hgf]
    · rintro rfl
      rw [lookupD_load_photos]
      exact List.mem_map_of_mem _ (List.mem_filter.mpr ⟨hf, by simp [hm]⟩)
  · intro s dt hs hp
    simp [get_photo_date, hs, hp]
  · intro hnone
    cases hex : f.exifDTO with
    | none => simp [get_photo_date, hex]
    | some s =>
      rw [hex] at hnone
      simp only [Option.some_bind] at hnone
      simp [get_photo_date, hex, hnone]

/-- Witness for C6 at a concrete directory: an EXIF-less photo resolved by
mtime and an EXIF-dated photo, each bucketed exactly once. -/
theorem C6_every_photo_bucketed_witness :
    (((load_photos [photoX, photoZ]).flatMap fun p => p.2).count photoX.path = 1) ∧
    (photoX.path ∈ lookupD (load_photos [photoX, photoZ]) (2024, 10) ↔
      (2024, 10) = get_year_week (get_photo_date photoX)) ∧
    get_photo_date photoZ = ⟨2024, 3, 12, 8, 0, 0⟩ ∧
    get_photo_date photoX = photoX.mtime := by
  have h1 := C6_every_photo_bucketed [photoX, photoZ] (by decide) photoX (by decide) (by decide)
  have h2 := C6_every_photo_bucketed [photoX, photoZ] (by decide) photoZ (by decide) (by decide)
  exact ⟨h1.1, h1.2.1 (2024, 10),
    h2.2.2.1 "2024:03:12 08:00:00" ⟨2024, 3, 12, 8, 0, 0⟩ rfl (by decide),
    h1.2.2.2 (by decide)⟩

/-! ## C8 — re-ingesting unchanged directories yields identical contents -/

theorem perm_ne_nil_iff {l1 l2 : List α} (h : l1.Perm l2) : l1 ≠ [] ↔ l2 ≠ [] := by
  constructor
  · intro h1 h2eq
    exact h1 (h.trans (h2eq ▸ List.Perm.refl l2)).eq_nil
  · intro h2 h1eq
    exact h2 ((h.symm.trans (h1eq ▸ List.Perm.refl l1)).eq_nil)

theorem mem_keys_foldB (its : List (WeekKey × α)) (w : WeekKey) :
    w ∈ bucketKeys (foldB its) ↔ itemsAt its w ≠ [] := by
  rw [mem_bucketKeys_iff, lookupB_foldB]
  cases h : (itemsAt its w).isEmpty
  · simp [h]
    intro hc
    rw [hc] at h
    simp at h
  · simp [List.isEmpty_iff.mp h]

/-- C8: enumerating the same unchanged directory in any order (the two runs
see permutations of the same file set) yields bucket collections with
identical contents: the same week-key sets, and per week the same items up
to order.  For the history ingester the directory is assumed free of the
stale-`dt` path (every record timestamp absent or parseable, or the file
malformed and skipped), which is what makes its record loop
order-independent. -/
theorem C8_reingestion_identical_contents :
    (∀ fs1 fs2 : List PhotoFile, fs1.Perm fs2 →
      (∀ w, w ∈ bucketKeys (load_photos fs1) ↔ w ∈ bucketKeys (load_photos fs2)) ∧
      (∀ w, (lookupD (load_photos fs1) w).Perm (lookupD (load_photos fs2) w))) ∧
    (∀ hs1 hs2 : List HistoryFileData, hs1.Perm hs2 →
      (∀ f ∈ hs1, wfFileB f = true ∨ malFileB f = true) →
      ∃ b1 d1 b2 d2,
        load_spotify_history hs1 = .ok (b1, d1) ∧
        load_spotify_history hs2 = .ok (b2, d2) ∧
        (∀ w, w ∈ bucketKeys b1 ↔ w ∈ bucketKeys b2) ∧
        (∀ w, (lookupD b1 w).Perm (lookupD b2 w))) := by
  constructor
  · intro fs1 fs2 hperm
    have hitems : (photoItems fs1).Perm (photoItems fs2) := (hperm.filter _).map _
    constructor
    · intro w
      rw [load_photos_eq_foldB, load_photos_eq_foldB, mem_keys_foldB, mem_keys_foldB]
      exact perm_ne_nil_iff (itemsAt_perm hitems w)
    · intro w
      rw [load_photos_eq_foldB, load_photos_eq_foldB, lookupD_foldB, lookupD_foldB]
      exact itemsAt_perm hitems w
  · intro hs1 hs2 hperm h1
    have h2 : ∀ f ∈ hs2, wfFileB f = true ∨ malFileB f = true :=
      fun f hf => h1 f (hperm.mem_iff.mpr hf)
    have hitems : (wfItems hs1).Perm (wfItems hs2) := (hperm.filter _).flatMap_right _
    refine ⟨_, _, _, _, load_spotify_history_mixed hs1 h1,
      load_spotify_history_mixed hs2 h2, ?_, ?_⟩
    · intro w
      rw [mem_keys_foldB, mem_keys_foldB]
      exact perm_ne_nil_iff (itemsAt_perm hitems w)
    · intro w
      rw [lookupD_foldB, lookupD_foldB]
      exact itemsAt_perm hitems w

/-- Witness for C8: the same two photos and the same two history files in
both enumeration orders. -/
theorem C8_reingestion_identical_contents_witness :
    (((2024, 11) : WeekKey) ∈ bucketKeys (load_photos [photoX, photoZ]) ↔
      ((2024, 11) : WeekKey) ∈ bucketKeys (load_photos [photoZ, photoX])) ∧
    (lookupD (load_photos [photoX, photoZ]) (2024, 10)).Perm
      (lookupD (load_photos [photoZ, photoX]) (2024, 10)) ∧
    (∃ b1 d1 b2 d2,
      load_spotify_history [.topList [entryGood, entryGood2], .invalidJson] = .ok (b1, d1) ∧
      load_spotify_history [.invalidJson, .topList [entryGood, entryGood2]] = .ok (b2, d2) ∧
      (∀ w, w ∈ bucketKeys b1 ↔ w ∈ bucketKeys b2) ∧
      (∀ w, (lookupD b1 w).Perm (lookupD b2 w))) := by
  have hp := C8_reingestion_identical_contents.1 [photoX, photoZ] [photoZ, photoX] (by decide)
  have hh := C8_reingestion_identical_contents.2
    [.topList [entryGood, entryGood2], .invalidJson]
    [.invalidJson, .topList [entryGood, entryGood2]] (by decide) (by decide)
  exact ⟨hp.1 (2024, 11), hp.2 (2024, 10), hh⟩

/-! ## C3 — two-stage uniform sampling fairness -/

theorem commonWeeks_nodup (tracks : Buckets Track) (photos : Buckets String) :
    (commonWeeks tracks photos).Nodup :=
  List.nodup_dedup _

/-- C3: fairness of `get_random_photo_and_song`'s two-stage draw.  Against a
uniform draw `r` over `Finset.range n` (the distribution of
`random.choice` on a sequence of length `n`):
week stage — every week in the intersection is selected by exactly one of
the `k` equiprobable draws, hence probability `1/k` regardless of bucket
sizes; item stage — within any week's history or photo bucket, each item
value is selected by exactly as many draws as it has occurrences, hence each
occurrence has probability `1/(bucket size)`. -/
theorem C3_sampler_fairness (tracks : Buckets Track) (photos : Buckets String) :
    (∀ w ∈ commonWeeks tracks photos,
      ((Finset.range (commonWeeks tracks photos).length).filter
        (fun r => pychoice (commonWeeks tracks photos) r = Except.ok w)).card = 1) ∧
    (∀ (w : WeekKey) (t : Track),
      ((Finset.range (lookupD tracks w).length).filter
        (fun r => pychoice (lookupD tracks w) r = Except.ok t)).card =
      (lookupD tracks w).count t) ∧
    (∀ (w : WeekKey) (p : String),
      ((Finset.range (lookupD photos w).length).filter
        (fun r => pychoice (lookupD photos w) r = Except.ok p)).card =
      (lookupD photos w).count p) := by
  refine ⟨?_, fun w t => card_filter_pychoice _ _, fun w p => card_filter_pychoice _ _⟩
  intro w hw
  rw [card_filter_pychoice]
  exact List.count_eq_one_of_mem (commonWeeks_nodup tracks photos) hw

/-- Witness for C3 at concrete buckets whose two common weeks hold buckets
of different sizes. -/
theorem C3_sampler_fairness_witness :
    (((Finset.range (commonWeeks
        [((2024, 10), [entryTrack entryGood ⟨2024, 3, 4, 10, 0, 0⟩]),
         ((2024, 11), [entryTrack entryGood2 ⟨2024, 3, 12, 9, 30, 0⟩,
                       entryTrack entryGood ⟨2024, 3, 12, 10, 0, 0⟩])]
        [((2024, 11), ["b.JPEG"]), ((2024, 10), ["a.jpg", "c.jpg"])]).length).filter
      (fun r => pychoice (commonWeeks
        [((2024, 10), [entryTrack entryGood ⟨2024, 3, 4, 10, 0, 0⟩]),
         ((2024, 11), [entryTrack entryGood2 ⟨2024, 3, 12, 9, 30, 0⟩,
                       entryTrack entryGood ⟨2024, 3, 12, 10, 0, 0⟩])]
        [((2024, 11), ["b.JPEG"]), ((2024, 10), ["a.jpg", "c.jpg"])]) r =
          Except.ok ((2024, 10) : WeekKey))).card = 1) ∧
    ((Finset.range (lookupD [((2024, 10), ["a.jpg", "c.jpg"])] (2024, 10)).length).filter
      (fun r => pychoice (lookupD [((2024, 10), ["a.jpg", "c.jpg"])] (2024, 10)) r =
        Except.ok "a.jpg")).card =
      (lookupD [((2024, 10), ["a.jpg", "c.jpg"])] (2024, 10)).count "a.jpg" := by
  refine ⟨?_, ?_⟩
  · exact (C3_sampler_fairness _ _).1 (2024, 10) (by decide)
  · exact (C3_sampler_fairness
      [((2024, 10), [entryTrack entryGood ⟨2024, 3, 4, 10, 0, 0⟩])]
      [((2024, 10), ["a.jpg", "c.jpg"])]).2.2 (2024, 10) "a.jpg"

/-! ## C5 — WeekKey matches the ISO-8601 definition -/

/-- C5: for every valid date, `get_year_week` returns the (year, week) pair
demanded by the ISO-8601 definition (week 1 = week containing the year's
first Thursday), and in particular the year-boundary dates 2020-12-28 and
2021-01-01 both resolve to week 53 of ISO year 2020. -/
theorem C5_get_year_week_iso8601 :
    (∀ (y m d : Int), 1 ≤ m → m ≤ 12 → 1 ≤ d → d ≤ daysInMonth y m →
      ∀ hh mi ss : Int,
        isoWeekSpec (ymd2ord y m d) (get_year_week ⟨y, m, d, hh, mi, ss⟩)) ∧
    get_year_week ⟨2020, 12, 28, 0, 0, 0⟩ = (2020, 53) ∧
    get_year_week ⟨2021, 1, 1, 0, 0, 0⟩ = (2020, 53) := by
  refine ⟨?_, by decide, by decide⟩
  intro y m d hm1 hm2 hd1 hd2 hh mi ss
  exact isocalendar_isoWeekSpec y m d hm1 hm2 hd1 hd2

/-- Witness for C5 at a concrete date. -/
theorem C5_get_year_week_iso8601_witness :
    isoWeekSpec (ymd2ord 2024 3 5) (get_year_week ⟨2024, 3, 5, 12, 30, 0⟩) :=
  C5_get_year_week_iso8601.1 2024 3 5 (by decide) (by decide) (by decide) (by decide)
    12 30 0
